import Mathlib

/-!
Shallow embedding of the view-counting core of the cfarmer-blog repository:
the in-memory key-value client from `src/utils/kvClient.ts` and the counting
API routes from `src/pages/api/view/site.ts` and
`src/pages/api/view/[page_id].ts`.

JavaScript numbers are modelled as exact integers extended with a NaN
element (`JsNum`); the only way the embedded code produces `nan` is
`undefined + by`, which in JavaScript evaluates to `NaN`.  JavaScript
objects are modelled as partial maps `String → Option _`; a read of an
absent property (`undefined`) and a resolved `null` are both `none`,
exactly the two outcomes the route handlers coalesce with `?? 0` and
`== null`.
-/

/-- A JavaScript number: an exact integer, or NaN. -/
inductive JsNum where
  | int : Int → JsNum
  | nan : JsNum
  deriving DecidableEq, Repr

/-- JavaScript `+` on two numbers; any NaN operand yields NaN. -/
def jsAdd : JsNum → JsNum → JsNum
  | .int a, .int b => .int (a + b)
  | _, _ => .nan

/-- JavaScript `x + n` where `x` may be `undefined` (an absent object
property read): `undefined + n` is NaN. -/
def jsAddUndef : Option JsNum → JsNum → JsNum
  | some a, b => jsAdd a b
  | none, _ => .nan

/-- An inner store object (interface `KvSite`): a partial map from field
names to numbers; `none` is an absent property. -/
def KvSite := String → Option JsNum

/-- The two-level store object (interface `KvStore`): outer keys are
resource keys ("site" or a page id), each holding a `KvSite`. -/
def KvStore := String → Option KvSite

/-- JavaScript property assignment on an inner object,
`keyStore[field] = v`. -/
def objAssign (f : String) (v : JsNum) (o : KvSite) : KvSite :=
  fun f' => if f' = f then some v else o f'

/-- JavaScript property assignment on the outer object,
`this.store[key] = site`. -/
def storeAssign (k : String) (site : KvSite) (s : KvStore) : KvStore :=
  fun k' => if k' = k then some site else s k'

namespace InMemoryKvClient

/-- The inner object `{ views: 0 }` built by the constructor. -/
def initSite : KvSite :=
  fun f => if f = "views" then some (.int 0) else none

/-- `new InMemoryKvClient()` sets `this.store = { site: { views: 0 } }`. -/
def initStore : KvStore :=
  fun k => if k = "site" then some initSite else none

/-- `get(key, field)`: when `Object.keys(this.store).includes(key)`, resolve
`this.store[key][field]` (which is `undefined` when the field is absent);
otherwise resolve `null`.  Both `null` and `undefined` are `none`; this
promise never rejects. -/
def get (s : KvStore) (key field : String) : Option JsNum :=
  match s key with
  | some keyStore => keyStore field
  | none => none

/-- `increment(key, field, by)`: when the key is present, read
`this.store[key][field]`, add `by` (NaN when the field was absent), store
the sum back and resolve it; when the key is absent, reject with `0`. -/
def increment (s : KvStore) (key field : String) (by_ : Int) :
    Except Int (JsNum × KvStore) :=
  match s key with
  | some keyStore =>
    let newVal := jsAddUndef (keyStore field) (.int by_)
    .ok (newVal, storeAssign key (objAssign field newVal keyStore) s)
  | none => .error 0

/-- `set(key, field, value)`: assigns
`this.store[key] = { [field]: value, ...this.store[key] }` and resolves `0`.
In the object spread the pre-existing entries come second and therefore
override the new one, so an already-present `field` keeps its old value;
spreading `undefined` (an absent key) contributes nothing. -/
def set (s : KvStore) (key field : String) (value : JsNum) :
    Int × KvStore :=
  let merged : KvSite := fun f =>
    match s key with
    | some old =>
      match old f with
      | some w => some w
      | none => if f = field then some value else none
    | none => if f = field then some value else none
  (0, storeAssign key merged s)

end InMemoryKvClient

/-- The body of a route `Response`: `Response(null)` for the validation
error, or `JSON.stringify({ views: v })` where `v` itself may be `null`. -/
inductive Body where
  | null : Body
  | views : Option JsNum → Body
  deriving DecidableEq, Repr

/-- An HTTP response as built by the route handlers: a status code and the
serialized body. -/
structure ApiResponse where
  status : Nat
  body : Body
  deriving DecidableEq, Repr

namespace ViewSite

/-- `GET /api/view/site`: read `site.views` from the store and return it
(possibly `null`) with status 200. -/
def GET (s : KvStore) : ApiResponse × KvStore :=
  let viewCount := InMemoryKvClient.get s "site" "views"
  (⟨200, .views viewCount⟩, s)

/-- `POST /api/view/site`: increment `site.views` by 1 and return the new
count with status 200; a rejection from `increment` propagates unhandled. -/
def POST (s : KvStore) : Except Int (ApiResponse × KvStore) :=
  match InMemoryKvClient.increment s "site" "views" 1 with
  | .ok (newCount, s') => .ok (⟨200, .views (some newCount)⟩, s')
  | .error e => .error e

end ViewSite

namespace ViewPage

/-- `GET /api/view/[page_id]`: with no `page_id` parameter respond 400 with
a null body; otherwise read the page's `views` field, coalesce an absent
result to 0 (`?? 0`), and respond 200. -/
def GET (pageId : Option String) (s : KvStore) : ApiResponse × KvStore :=
  match pageId with
  | none => (⟨400, .null⟩, s)
  | some pid =>
    let pageCount := (InMemoryKvClient.get s pid "views").getD (.int 0)
    (⟨200, .views (some pageCount)⟩, s)

/-- `PUT /api/view/[page_id]`: with no `page_id` parameter respond 400 with
a null body; otherwise read the page's `views` field; when the result
`== null` (absent), call `set(pid, "views", 1)` and answer 1; otherwise call
`increment(pid, "views", 1)` and answer its result, propagating a
rejection. -/
def PUT (pageId : Option String) (s : KvStore) :
    Except Int (ApiResponse × KvStore) :=
  match pageId with
  | none => .ok (⟨400, .null⟩, s)
  | some pid =>
    match InMemoryKvClient.get s pid "views" with
    | none =>
      let r := InMemoryKvClient.set s pid "views" (.int 1)
      .ok (⟨200, .views (some (.int 1))⟩, r.2)
    | some _ =>
      match InMemoryKvClient.increment s pid "views" 1 with
      | .ok (n, s') => .ok (⟨200, .views (some n)⟩, s')
      | .error e => .error e

end ViewPage

/-- Which of the two `KvClient` implementations the factory selects. -/
inductive KvClientKind where
  | vercel : KvClientKind
  | inMemory : KvClientKind
  deriving DecidableEq, Repr

/-- `getKvClient(env)`: the `switch` sends `case "prd"` to the Vercel-backed
client and every other value of `ENVIRONMENT` (including `undefined`) to the
in-memory client. -/
def getKvClient (env : Option String) : KvClientKind :=
  match env with
  | some "prd" => .vercel
  | _ => .inMemory

/-- One HTTP request to the counting endpoints. -/
inductive Req where
  | siteGet : Req
  | sitePost : Req
  | pageGet : Option String → Req
  | pagePut : Option String → Req

/-- Dispatch one request against the shared in-memory store. -/
def runReq (r : Req) (s : KvStore) : Except Int (ApiResponse × KvStore) :=
  match r with
  | .siteGet => .ok (ViewSite.GET s)
  | .sitePost => ViewSite.POST s
  | .pageGet pid => .ok (ViewPage.GET pid s)
  | .pagePut pid => ViewPage.PUT pid s

/-- `k` consecutive `increment(key, field, 1)` calls, stopping at the first
rejection. -/
def incrementN (key field : String) : Nat → KvStore → Except Int KvStore
  | 0, s => .ok s
  | k + 1, s =>
    match InMemoryKvClient.increment s key field 1 with
    | .ok (_, s') => incrementN key field k s'
    | .error e => .error e

/-- Store invariant: the `site` resource is present and its `views` field
holds a non-negative integer, and every field value anywhere in the store is
a non-negative integer. -/
def StoreInv (s : KvStore) : Prop :=
  (∃ ks, s "site" = some ks ∧ ∃ n : Int, ks "views" = some (.int n) ∧ 0 ≤ n) ∧
  (∀ key ks field v, s key = some ks → ks field = some v →
    ∃ n : Int, v = .int n ∧ 0 ≤ n)

section Helpers

@[simp] theorem objAssign_apply (f : String) (v : JsNum) (o : KvSite)
    (f' : String) : objAssign f v o f' = if f' = f then some v else o f' :=
  rfl

@[simp] theorem storeAssign_apply (k : String) (site : KvSite) (s : KvStore)
    (k' : String) : storeAssign k site s k' = if k' = k then some site else s k' :=
  rfl

theorem get_eq_some_int {s : KvStore} {key field : String} {v : Int}
    (h : InMemoryKvClient.get s key field = some (.int v)) :
    ∃ ks, s key = some ks ∧ ks field = some (.int v) := by
  unfold InMemoryKvClient.get at h
  cases hk : s key with
  | none => rw [hk] at h; exact absurd h (by simp)
  | some ks => rw [hk] at h; exact ⟨ks, rfl, h⟩

theorem increment_of_get_int {s : KvStore} {key field : String} {v : Int}
    (h : InMemoryKvClient.get s key field = some (.int v)) :
    ∃ ks, s key = some ks ∧ ks field = some (.int v) ∧
      InMemoryKvClient.increment s key field 1 =
        .ok (.int (v + 1), storeAssign key (objAssign field (.int (v + 1)) ks) s) := by
  obtain ⟨ks, hk, hf⟩ := get_eq_some_int h
  exact ⟨ks, hk, hf, by simp [InMemoryKvClient.increment, hk, hf, jsAddUndef, jsAdd]⟩

theorem get_assign_self (key field : String) (w : JsNum) (ks : KvSite)
    (s : KvStore) :
    InMemoryKvClient.get (storeAssign key (objAssign field w ks) s) key field =
      some w := by
  simp [InMemoryKvClient.get]

end Helpers

/-- Claim C6: a per-page GET or PUT with a missing `page_id` path parameter
answers status 400 with a null body and returns the store unchanged (no
store operation runs: the handlers return before touching the client). -/
theorem page_request_missing_id_returns_400 (s : KvStore) :
    ViewPage.GET none s = (⟨400, .null⟩, s) ∧
    ViewPage.PUT none s = .ok (⟨400, .null⟩, s) :=
  ⟨rfl, rfl⟩

/-- Claim C8: the site GET endpoint is a read-only view query: for every
store state it answers 200 with the current `site.views` value and returns
the very same store. -/
theorem site_get_is_read_only (s : KvStore) :
    ViewSite.GET s =
      (⟨200, .views (InMemoryKvClient.get s "site" "views")⟩, s) :=
  rfl

/-- Claim C9: `getKvClient` is a pure mapping on the environment value:
`"prd"` selects the Vercel-backed client and every other value, including
an unset variable, selects the in-memory client. -/
theorem getKvClient_env_selection :
    getKvClient (some "prd") = .vercel ∧
    ∀ env, env ≠ some "prd" → getKvClient env = .inMemory := by
  refine ⟨rfl, fun env h => ?_⟩
  unfold getKvClient
  split
  · exact absurd rfl h
  · rfl

/-- Witness for claim C9 at the concrete environments `"prd"` and unset. -/
theorem getKvClient_env_selection_witness :
    getKvClient (some "prd") = .vercel ∧ getKvClient none = .inMemory :=
  ⟨getKvClient_env_selection.1, getKvClient_env_selection.2 none (by decide)⟩

/-- Claim C1: the spec says `set` unconditionally overwrites the field, so a
`get` after `set(key, field, n)` returns `n` even when the field already held
a value.  The code refutes this: in `{ [field]: value, ...this.store[key] }`
the spread of the old object comes last and wins, so on the fresh store
(where `site.views` is `0`) a `set("site", "views", 5)` leaves the value at
`0`, not `5`. -/
theorem set_on_existing_field_keeps_old_value :
    InMemoryKvClient.get
        (InMemoryKvClient.set InMemoryKvClient.initStore "site" "views"
          (.int 5)).2 "site" "views" = some (.int 0) ∧
    InMemoryKvClient.get
        (InMemoryKvClient.set InMemoryKvClient.initStore "site" "views"
          (.int 5)).2 "site" "views" ≠ some (.int 5) := by
  decide

/-- Claim C10: `set` resolves with acknowledgment `0`, leaves every other
resource key untouched, and leaves the value of every field other than the
written one unchanged under the written key. -/
theorem set_frame_and_ack (s : KvStore) (key field : String) (v : JsNum) :
    (InMemoryKvClient.set s key field v).1 = 0 ∧
    (∀ k, k ≠ key → (InMemoryKvClient.set s key field v).2 k = s k) ∧
    (∀ f, f ≠ field →
      InMemoryKvClient.get (InMemoryKvClient.set s key field v).2 key f =
        InMemoryKvClient.get s key f) := by
  refine ⟨rfl, fun k hk => ?_, fun f hf => ?_⟩
  · simp [InMemoryKvClient.set, hk]
  · simp only [InMemoryKvClient.set, InMemoryKvClient.get, storeAssign_apply,
      if_pos rfl]
    cases hks : s key with
    | none => simp [hf]
    | some ks => cases hkf : ks f <;> simp [hkf, hf]

/-- Witness for claim C10 on the fresh store, written key `"site"`, other
key `"about"`, other field `"foo"`. -/
theorem set_frame_and_ack_witness :
    (InMemoryKvClient.set InMemoryKvClient.initStore "site" "views"
      (.int 7)).1 = 0 ∧
    (InMemoryKvClient.set InMemoryKvClient.initStore "site" "views"
      (.int 7)).2 "about" = InMemoryKvClient.initStore "about" ∧
    InMemoryKvClient.get
        (InMemoryKvClient.set InMemoryKvClient.initStore "site" "views"
          (.int 7)).2 "site" "foo" =
      InMemoryKvClient.get InMemoryKvClient.initStore "site" "foo" :=
  ⟨(set_frame_and_ack InMemoryKvClient.initStore "site" "views" (.int 7)).1,
   (set_frame_and_ack InMemoryKvClient.initStore "site" "views" (.int 7)).2.1
     "about" (by decide),
   (set_frame_and_ack InMemoryKvClient.initStore "site" "views" (.int 7)).2.2
     "foo" (by decide)⟩

/-- Claim C5: for a page id with no record, the in-memory `get` resolves to
an absent value without raising, and the per-page GET coalesces it to `0`
and answers 200 with body `{"views": 0}`, leaving the store unchanged. -/
theorem page_get_unseen_returns_zero (s : KvStore) (pid : String)
    (h : s pid = none) :
    InMemoryKvClient.get s pid "views" = none ∧
    ViewPage.GET (some pid) s = (⟨200, .views (some (.int 0))⟩, s) := by
  have hg : InMemoryKvClient.get s pid "views" = none := by
    simp [InMemoryKvClient.get, h]
  exact ⟨hg, by simp [ViewPage.GET, hg]⟩

/-- Witness for claim C5 on the fresh store and the unseen page id
`"about"`. -/
theorem page_get_unseen_returns_zero_witness :
    InMemoryKvClient.get InMemoryKvClient.initStore "about" "views" = none ∧
    ViewPage.GET (some "about") InMemoryKvClient.initStore =
      (⟨200, .views (some (.int 0))⟩, InMemoryKvClient.initStore) :=
  page_get_unseen_returns_zero InMemoryKvClient.initStore "about" rfl

/-- Claim C2: the in-memory `increment` rejects (with reason `0`) on a
resource key that is not in the store, and the per-page PUT compensates:
when the preliminary `get` is absent it calls `set(pid, "views", 1)` and
answers 1, never reaching `increment` on the unknown key. -/
theorem increment_rejects_unknown_key_put_compensates :
    (∀ (s : KvStore) (key field : String) (b : Int), s key = none →
        InMemoryKvClient.increment s key field b = .error 0) ∧
    (∀ (s : KvStore) (pid : String),
        InMemoryKvClient.get s pid "views" = none →
        ViewPage.PUT (some pid) s =
          .ok (⟨200, .views (some (.int 1))⟩,
            (InMemoryKvClient.set s pid "views" (.int 1)).2)) := by
  refine ⟨fun s key field b h => ?_, fun s pid h => ?_⟩
  · simp [InMemoryKvClient.increment, h]
  · simp [ViewPage.PUT, h]

/-- Witness for claim C2 on the fresh store and the unknown key
`"about"`. -/
theorem increment_rejects_unknown_key_put_compensates_witness :
    InMemoryKvClient.increment InMemoryKvClient.initStore "about" "views" 1 =
      .error 0 ∧
    ViewPage.PUT (some "about") InMemoryKvClient.initStore =
      .ok (⟨200, .views (some (.int 1))⟩,
        (InMemoryKvClient.set InMemoryKvClient.initStore "about" "views"
          (.int 1)).2) :=
  ⟨increment_rejects_unknown_key_put_compensates.1
      InMemoryKvClient.initStore "about" "views" 1 rfl,
   increment_rejects_unknown_key_put_compensates.2
      InMemoryKvClient.initStore "about" (by decide)⟩

/-- Claim C3: from the freshly constructed store, the first per-page PUT on
a never-seen page id answers 200 with `{"views": 1}` and the second PUT on
the same id answers `{"views": 2}`. -/
theorem put_twice_on_fresh_store (pid : String) (h : pid ≠ "site") :
    ∃ s1 s2,
      ViewPage.PUT (some pid) InMemoryKvClient.initStore =
        .ok (⟨200, .views (some (.int 1))⟩, s1) ∧
      ViewPage.PUT (some pid) s1 = .ok (⟨200, .views (some (.int 2))⟩, s2) := by
  have h0 : InMemoryKvClient.initStore pid = none := by
    simp [InMemoryKvClient.initStore, h]
  have hg0 : InMemoryKvClient.get InMemoryKvClient.initStore pid "views" =
      none := by
    simp [InMemoryKvClient.get, h0]
  have hg1 : InMemoryKvClient.get
      (InMemoryKvClient.set InMemoryKvClient.initStore pid "views"
        (.int 1)).2 pid "views" = some (.int 1) := by
    simp [InMemoryKvClient.get, InMemoryKvClient.set, h0]
  obtain ⟨ks, hk, hf, hinc⟩ := increment_of_get_int hg1
  rw [show (1 : Int) + 1 = 2 by norm_num] at hinc
  refine ⟨(InMemoryKvClient.set InMemoryKvClient.initStore pid "views"
      (.int 1)).2,
    storeAssign pid (objAssign "views" (.int 2) ks)
      (InMemoryKvClient.set InMemoryKvClient.initStore pid "views" (.int 1)).2,
    ?_, ?_⟩
  · simp [ViewPage.PUT, hg0]
  · simp [ViewPage.PUT, hg1, hinc]

/-- Witness for claim C3 on the concrete page id `"about"`. -/
theorem put_twice_on_fresh_store_witness :
    ∃ s1 s2,
      ViewPage.PUT (some "about") InMemoryKvClient.initStore =
        .ok (⟨200, .views (some (.int 1))⟩, s1) ∧
      ViewPage.PUT (some "about") s1 =
        .ok (⟨200, .views (some (.int 2))⟩, s2) :=
  put_twice_on_fresh_store "about" (by decide)

/-- Claim C4: starting from a key and field holding the integer `v`,
`k` consecutive `increment(key, field, 1)` calls all succeed and leave the
value at `v + k`; in particular two consecutive site POSTs answer `v + 1`
and then `v + 2`, strictly increasing by exactly 1. -/
theorem increment_k_times_adds_k :
    (∀ (k : Nat) (s : KvStore) (key field : String) (v : Int),
        InMemoryKvClient.get s key field = some (.int v) →
        ∃ s', incrementN key field k s = .ok s' ∧
          InMemoryKvClient.get s' key field = some (.int (v + k))) ∧
    (∀ (s : KvStore) (v : Int),
        InMemoryKvClient.get s "site" "views" = some (.int v) →
        ∃ s1 s2,
          ViewSite.POST s = .ok (⟨200, .views (some (.int (v + 1)))⟩, s1) ∧
          ViewSite.POST s1 = .ok (⟨200, .views (some (.int (v + 2)))⟩, s2)) := by
  constructor
  · intro k
    induction k with
    | zero =>
      intro s key field v h
      exact ⟨s, rfl, by simpa using h⟩
    | succ k ih =>
      intro s key field v h
      obtain ⟨ks, hk, hf, hinc⟩ := increment_of_get_int h
      obtain ⟨s', hrun, hget⟩ :=
        ih (storeAssign key (objAssign field (.int (v + 1)) ks) s) key field
          (v + 1) (get_assign_self key field (.int (v + 1)) ks s)
      refine ⟨s', ?_, ?_⟩
      · simp [incrementN, hinc, hrun]
      · rw [hget]
        congr 2
        push_cast
        ring
  · intro s v h
    obtain ⟨ks, hk, hf, hinc⟩ := increment_of_get_int h
    have h1 := get_assign_self "site" "views" (.int (v + 1)) ks s
    obtain ⟨ks2, hk2, hf2, hinc2⟩ := increment_of_get_int h1
    rw [show v + 1 + 1 = v + 2 by ring] at hinc2
    refine ⟨storeAssign "site" (objAssign "views" (.int (v + 1)) ks) s,
      storeAssign "site" (objAssign "views" (.int (v + 2)) ks2)
        (storeAssign "site" (objAssign "views" (.int (v + 1)) ks) s),
      ?_, ?_⟩
    · simp [ViewSite.POST, hinc]
    · simp [ViewSite.POST, hinc2]

/-- Witness for claim C4: two increments (and two POSTs) from the fresh
store, whose `site.views` starts at 0. -/
theorem increment_k_times_adds_k_witness :
    (∃ s', incrementN "site" "views" 2 InMemoryKvClient.initStore = .ok s' ∧
        InMemoryKvClient.get s' "site" "views" =
          some (.int (0 + (2 : Nat)))) ∧
    (∃ s1 s2,
        ViewSite.POST InMemoryKvClient.initStore =
          .ok (⟨200, .views (some (.int (0 + 1)))⟩, s1) ∧
        ViewSite.POST s1 = .ok (⟨200, .views (some (.int (0 + 2)))⟩, s2)) :=
  ⟨increment_k_times_adds_k.1 2 InMemoryKvClient.initStore "site" "views" 0
      (by decide),
   increment_k_times_adds_k.2 InMemoryKvClient.initStore 0 (by decide)⟩

section InvariantHelpers

theorem get_eq_some {s : KvStore} {key field : String} {v : JsNum}
    (h : InMemoryKvClient.get s key field = some v) :
    ∃ ks, s key = some ks ∧ ks field = some v := by
  unfold InMemoryKvClient.get at h
  cases hk : s key with
  | none => rw [hk] at h; exact absurd h (by simp)
  | some ks => rw [hk] at h; exact ⟨ks, rfl, h⟩

theorem get_of_mem {s : KvStore} {k f : String} {ks : KvSite} {v : JsNum}
    (hk : s k = some ks) (hf : ks f = some v) :
    InMemoryKvClient.get s k f = some v := by
  simp [InMemoryKvClient.get, hk, hf]

theorem set_apply_other {s : KvStore} {pid : String} (field : String)
    (value : JsNum) {k2 : String} (h2 : k2 ≠ pid) :
    (InMemoryKvClient.set s pid field value).2 k2 = s k2 := by
  simp [InMemoryKvClient.set, h2]

theorem get_set_written (s : KvStore) (pid field : String) (value : JsNum)
    (f : String) :
    InMemoryKvClient.get (InMemoryKvClient.set s pid field value).2 pid f =
      match InMemoryKvClient.get s pid f with
      | some w => some w
      | none => if f = field then some value else none := by
  simp only [InMemoryKvClient.get, InMemoryKvClient.set, storeAssign_apply,
    if_pos rfl]
  cases hks : s pid <;> simp [hks]

theorem get_set_preserve {s : KvStore} (pid : String) {k2 f2 : String}
    {v : JsNum} (hg : InMemoryKvClient.get s k2 f2 = some v) :
    InMemoryKvClient.get (InMemoryKvClient.set s pid "views" (.int 1)).2 k2 f2
      = some v := by
  by_cases h2 : k2 = pid
  · subst h2
    rw [get_set_written, hg]
  · obtain ⟨ks2, hk2, hf2⟩ := get_eq_some hg
    exact get_of_mem
      (by rw [set_apply_other "views" (.int 1) h2]; exact hk2) hf2

theorem storeInv_init : StoreInv InMemoryKvClient.initStore := by
  constructor
  · exact ⟨InMemoryKvClient.initSite, rfl, 0, rfl, le_refl 0⟩
  · intro key ks field v hk hf
    simp only [InMemoryKvClient.initStore] at hk
    by_cases h : key = "site"
    · rw [if_pos h] at hk
      have he := Option.some.inj hk
      subst he
      simp only [InMemoryKvClient.initSite] at hf
      by_cases h2 : field = "views"
      · rw [if_pos h2] at hf
        exact ⟨0, (Option.some.inj hf).symm, le_refl 0⟩
      · rw [if_neg h2] at hf
        exact absurd hf (by simp)
    · rw [if_neg h] at hk
      exact absurd hk (by simp)

theorem storeInv_assign {s : KvStore} {ks : KvSite} {key field : String}
    {w : Int} (hs : StoreInv s) (hk : s key = some ks) (hw : 0 ≤ w) :
    StoreInv (storeAssign key (objAssign field (.int w) ks) s) := by
  obtain ⟨⟨sks, hsite, n, hviews, hn⟩, hall⟩ := id hs
  constructor
  · by_cases hks : key = "site"
    · subst hks
      have he : ks = sks := Option.some.inj (hk.symm.trans hsite)
      refine ⟨objAssign field (.int w) ks, by simp, ?_⟩
      by_cases hf : ("views" : String) = field
      · exact ⟨w, by simp [hf], hw⟩
      · refine ⟨n, ?_, hn⟩
        simp only [objAssign_apply, if_neg hf]
        rw [he]
        exact hviews
    · have hne : ("site" : String) ≠ key := fun hh => hks hh.symm
      refine ⟨sks, ?_, n, hviews, hn⟩
      simp only [storeAssign_apply, if_neg hne]
      exact hsite
  · intro k2 ks2 f2 v2 hk2 hf2
    by_cases h2 : k2 = key
    · subst h2
      rw [storeAssign_apply, if_pos rfl] at hk2
      have he2 := Option.some.inj hk2
      rw [← he2] at hf2
      by_cases h3 : f2 = field
      · rw [objAssign_apply, if_pos h3] at hf2
        exact ⟨w, (Option.some.inj hf2).symm, hw⟩
      · rw [objAssign_apply, if_neg h3] at hf2
        exact hall k2 ks f2 v2 hk hf2
    · rw [storeAssign_apply, if_neg h2] at hk2
      exact hall k2 ks2 f2 v2 hk2 hf2

theorem get_assign_mono {s : KvStore} {ks : KvSite} {key field : String}
    {vOld vNew : Int} (hk : s key = some ks)
    (hf : ks field = some (.int vOld)) (hle : vOld ≤ vNew) :
    ∀ k2 f2 n, InMemoryKvClient.get s k2 f2 = some (.int n) →
      ∃ m, InMemoryKvClient.get
          (storeAssign key (objAssign field (.int vNew) ks) s) k2 f2 =
        some (.int m) ∧ n ≤ m := by
  intro k2 f2 n hg
  obtain ⟨ks2, hk2, hf2⟩ := get_eq_some hg
  by_cases h2 : k2 = key
  · subst h2
    have he : ks2 = ks := Option.some.inj (hk2.symm.trans hk)
    subst he
    by_cases h3 : f2 = field
    · subst h3
      have hj : JsNum.int n = JsNum.int vOld := Option.some.inj (hf2.symm.trans hf)
      have hnv : n = vOld := by injection hj
      exact ⟨vNew, by simp [InMemoryKvClient.get], by omega⟩
    · refine ⟨n, ?_, le_refl n⟩
      simp [InMemoryKvClient.get, h3, hf2]
  · refine ⟨n, ?_, le_refl n⟩
    simp [InMemoryKvClient.get, h2, hk2, hf2]

theorem storeInv_set {s : KvStore} (hs : StoreInv s) (pid : String) :
    StoreInv (InMemoryKvClient.set s pid "views" (.int 1)).2 := by
  obtain ⟨⟨sks, hsite, n, hviews, hn⟩, hall⟩ := id hs
  have hgsite : InMemoryKvClient.get s "site" "views" = some (.int n) :=
    get_of_mem hsite hviews
  constructor
  · by_cases hp : ("site" : String) = pid
    · subst hp
      have hg1 : InMemoryKvClient.get
          (InMemoryKvClient.set s "site" "views" (.int 1)).2 "site" "views" =
          some (.int n) := by
        rw [get_set_written, hgsite]
      obtain ⟨ks1, hk1, hf1⟩ := get_eq_some hg1
      exact ⟨ks1, hk1, n, hf1, hn⟩
    · refine ⟨sks, ?_, n, hviews, hn⟩
      rw [set_apply_other "views" (.int 1) hp]
      exact hsite
  · intro k2 ks2 f2 v2 hk2 hf2
    by_cases h2 : k2 = pid
    · subst h2
      have hg2 : InMemoryKvClient.get
          (InMemoryKvClient.set s k2 "views" (.int 1)).2 k2 f2 = some v2 :=
        get_of_mem hk2 hf2
      rw [get_set_written] at hg2
      cases hww : InMemoryKvClient.get s k2 f2 with
      | some w =>
        rw [hww] at hg2
        obtain ⟨ks0, hk0, hf0⟩ := get_eq_some hww
        have hwv : w = v2 := Option.some.inj hg2
        rw [hwv] at hf0
        exact hall k2 ks0 f2 v2 hk0 hf0
      | none =>
        rw [hww] at hg2
        by_cases h3 : f2 = "views"
        · rw [if_pos h3] at hg2
          exact ⟨1, (Option.some.inj hg2).symm, by norm_num⟩
        · rw [if_neg h3] at hg2
          exact absurd hg2 (by simp)
    · rw [set_apply_other "views" (.int 1) h2] at hk2
      exact hall k2 ks2 f2 v2 hk2 hf2

end InvariantHelpers

/-- Claim C7: the freshly constructed store holds the `site` resource with
`views` seeded at 0 and only non-negative integer field values; every
endpoint request run from such a state succeeds, preserves the invariant
(so the `site` resource stays present), and leaves every stored counter
value non-decreasing. -/
theorem store_invariant_preserved :
    (∃ ks, InMemoryKvClient.initStore "site" = some ks ∧
      ks "views" = some (.int 0)) ∧
    StoreInv InMemoryKvClient.initStore ∧
    ∀ (r : Req) (s : KvStore), StoreInv s →
      ∃ resp s', runReq r s = .ok (resp, s') ∧ StoreInv s' ∧
        ∀ key field n, InMemoryKvClient.get s key field = some (.int n) →
          ∃ m, InMemoryKvClient.get s' key field = some (.int m) ∧ n ≤ m := by
  refine ⟨⟨InMemoryKvClient.initSite, rfl, rfl⟩, storeInv_init,
    fun r s hs => ?_⟩
  cases r with
  | siteGet =>
    exact ⟨⟨200, .views (InMemoryKvClient.get s "site" "views")⟩, s, rfl, hs,
      fun key field n hg => ⟨n, hg, le_refl n⟩⟩
  | sitePost =>
    obtain ⟨⟨sks, hsite, n, hviews, hn⟩, hall⟩ := id hs
    have hgs : InMemoryKvClient.get s "site" "views" = some (.int n) :=
      get_of_mem hsite hviews
    obtain ⟨ks0, hk0, hf0, hinc⟩ := increment_of_get_int hgs
    refine ⟨⟨200, .views (some (.int (n + 1)))⟩,
      storeAssign "site" (objAssign "views" (.int (n + 1)) ks0) s, ?_, ?_, ?_⟩
    · simp [runReq, ViewSite.POST, hinc]
    · exact storeInv_assign hs hk0 (by omega)
    · exact fun key field m hg =>
        get_assign_mono hk0 hf0 (by omega) key field m hg
  | pageGet pid =>
    cases pid with
    | none =>
      exact ⟨⟨400, .null⟩, s, rfl, hs, fun key field n hg => ⟨n, hg, le_refl n⟩⟩
    | some p =>
      exact ⟨⟨200, .views (some ((InMemoryKvClient.get s p "views").getD
          (.int 0)))⟩, s, rfl, hs,
        fun key field n hg => ⟨n, hg, le_refl n⟩⟩
  | pagePut pid =>
    cases pid with
    | none =>
      exact ⟨⟨400, .null⟩, s, rfl, hs, fun key field n hg => ⟨n, hg, le_refl n⟩⟩
    | some p =>
      cases hg : InMemoryKvClient.get s p "views" with
      | none =>
        refine ⟨⟨200, .views (some (.int 1))⟩,
          (InMemoryKvClient.set s p "views" (.int 1)).2, ?_, ?_, ?_⟩
        · simp [runReq, ViewPage.PUT, hg]
        · exact storeInv_set hs p
        · exact fun key field m hgm => ⟨m, get_set_preserve p hgm, le_refl m⟩
      | some v =>
        obtain ⟨ks0, hk0, hf0⟩ := get_eq_some hg
        obtain ⟨m, rfl, hm⟩ := hs.2 p ks0 "views" v hk0 hf0
        obtain ⟨ks1, hk1, hf1, hinc⟩ := increment_of_get_int hg
        refine ⟨⟨200, .views (some (.int (m + 1)))⟩,
          storeAssign p (objAssign "views" (.int (m + 1)) ks1) s, ?_, ?_, ?_⟩
        · simp [runReq, ViewPage.PUT, hg, hinc]
        · exact storeInv_assign hs hk1 (by omega)
        · exact fun key field j hgj =>
            get_assign_mono hk1 hf1 (by omega) key field j hgj

/-- Witness for claim C7: one site POST run from the fresh store. -/
theorem store_invariant_preserved_witness :
    ∃ resp s', runReq .sitePost InMemoryKvClient.initStore = .ok (resp, s') ∧
      StoreInv s' ∧
      ∀ key field n,
        InMemoryKvClient.get InMemoryKvClient.initStore key field =
          some (.int n) →
        ∃ m, InMemoryKvClient.get s' key field = some (.int m) ∧ n ≤ m :=
  store_invariant_preserved.2.2 .sitePost InMemoryKvClient.initStore
    storeInv_init

/-- Witness for claim C6 on the fresh store. -/
theorem page_request_missing_id_returns_400_witness :
    ViewPage.GET none InMemoryKvClient.initStore =
      (⟨400, .null⟩, InMemoryKvClient.initStore) ∧
    ViewPage.PUT none InMemoryKvClient.initStore =
      .ok (⟨400, .null⟩, InMemoryKvClient.initStore) :=
  page_request_missing_id_returns_400 InMemoryKvClient.initStore

/-- Witness for claim C8 on the fresh store. -/
theorem site_get_is_read_only_witness :
    ViewSite.GET InMemoryKvClient.initStore =
      (⟨200, .views (InMemoryKvClient.get InMemoryKvClient.initStore "site"
        "views")⟩, InMemoryKvClient.initStore) :=
  site_get_is_read_only InMemoryKvClient.initStore
